import Mathlib

/-!
Verification of the time kernel of the `satctrl` repository.

This file shallowly embeds the Rust source files
`src/time/instant.rs`, `src/time/duration.rs` and `src/time/instant_ops.rs`
into Lean and proves (or refutes) the specification claims about them.

Conventions of the embedding:
* The Rust `i64` microsecond counts are modelled as unbounded `Int`;
  the claims under study are about the exact integer arithmetic of the
  kernel (overflow is treated separately).
* Rust `/` and `%` on `i64` truncate toward zero; they are embedded as
  `Int.tdiv` and `Int.tmod`.
* `f64` values that the source uses only at the API boundary are carried
  at microsecond granularity as exact integers (`second * 1.0e6 as i64`
  becomes an integer microsecond argument), and the `f64` day arithmetic
  of `as_mjd`/`as_jd` is modelled as exact rational arithmetic, with the
  `as_jd().floor() as i64` step computed by an exact integer floor
  division that provably equals the rational floor.
-/

namespace Satctrl

/-- Duration (src/time/duration.rs): a signed count of microseconds.
In the Rust source it is the tuple struct `Duration(pub(crate) i64)`. -/
structure Duration where
  usec : Int
deriving DecidableEq

/-- Instant (src/time/instant.rs): microseconds since the Unix epoch with
leap seconds accounted for, stored in the field `raw : i64`. -/
structure Instant where
  raw : Int
deriving DecidableEq

/-- Leap second table from src/time/instant.rs (`LEAP_SECOND_TABLE`).
First component: microseconds since the unixtime epoch (threshold);
second component: leap seconds to add, in microseconds. Ordered by
descending threshold. -/
def LEAP_SECOND_TABLE : List (Int × Int) :=
  [(1483228836000000, 37000000), -- 2017-01-01
   (1435708835000000, 36000000), -- 2015-07-01
   (1341100834000000, 35000000), -- 2012-07-01
   (1230768033000000, 34000000), -- 2009-01-01
   (1136073632000000, 33000000), -- 2006-01-01
   (915148831000000, 32000000),  -- 1999-01-01
   (867715230000000, 31000000),  -- 1997-07-01
   (820454429000000, 30000000),  -- 1996-01-01
   (773020828000000, 29000000),  -- 1994-07-01
   (741484827000000, 28000000),  -- 1993-07-01
   (709948826000000, 27000000),  -- 1992-07-01
   (662688025000000, 26000000),  -- 1991-01-01
   (631152024000000, 25000000),  -- 1990-01-01
   (567993623000000, 24000000),  -- 1988-01-01
   (489024022000000, 23000000),  -- 1985-07-01
   (425865621000000, 22000000),  -- 1983-07-01
   (394329620000000, 21000000),  -- 1982-07-01
   (362793619000000, 20000000),  -- 1981-07-01
   (315532818000000, 19000000),  -- 1980-01-01
   (283996817000000, 18000000),  -- 1979-01-01
   (252460816000000, 17000000),  -- 1978-01-01
   (220924815000000, 16000000),  -- 1977-01-01
   (189302414000000, 15000000),  -- 1976-01-01
   (157766413000000, 14000000),  -- 1975-01-01
   (126230412000000, 13000000),  -- 1974-01-01
   (94694411000000, 12000000),   -- 1973-01-01
   (78796810000000, 11000000),   -- 1972-07-01
   (63072009000000, 10000000)]   -- 1972-01-01

/-- The scanning loop of `microleapseconds`: return the offset of the
first entry whose threshold satisfies `raw > t` (Rust `if raw > *t`),
else fall through to `0`. -/
def mlsAux : List (Int × Int) → Int → Int
  | [], _ => 0
  | (t, ls) :: rest, raw => if t < raw then ls else mlsAux rest raw

/-- `microleapseconds` from src/time/instant.rs lines 87-94: the number of
leap microseconds in effect at `raw` (microseconds since the unixtime
epoch). -/
def microleapseconds (raw : Int) : Int :=
  mlsAux LEAP_SECOND_TABLE raw

/-- Named epoch constant `Instant::UNIX_EPOCH` (raw = 0). -/
def Instant.UNIX_EPOCH : Instant := ⟨0⟩

/-- Named epoch constant `Instant::GPS_EPOCH` (1980-01-06 00:00:00 UTC). -/
def Instant.GPS_EPOCH : Instant := ⟨315964819000000⟩

/-- Named epoch constant `Instant::MJD_EPOCH` (1858-11-17 00:00:00 UTC). -/
def Instant.MJD_EPOCH : Instant := ⟨-3506716800000000⟩

/-- Named epoch constant `Instant::J2000` (2000-01-01 12:00:00 TT). -/
def Instant.J2000 : Instant := ⟨946728064184000⟩

/-- `impl Add<Duration> for Instant` (src/time/instant_ops.rs lines 4-10):
plain integer addition on the internal microsecond count. -/
def Instant.add (t : Instant) (d : Duration) : Instant :=
  ⟨t.raw + d.usec⟩

/-- `impl Sub<Duration> for Instant` (src/time/instant_ops.rs lines 36-42):
plain integer subtraction on the internal microsecond count. -/
def Instant.sub (t : Instant) (d : Duration) : Instant :=
  ⟨t.raw - d.usec⟩

/-- `impl Sub<Instant> for Instant` (src/time/instant_ops.rs lines 76-82):
difference of two instants as a `Duration`. -/
def Instant.subInstant (t other : Instant) : Duration :=
  ⟨t.raw - other.raw⟩

/-- `Duration::as_microseconds` (src/time/duration.rs). -/
def Duration.as_microseconds (d : Duration) : Int :=
  d.usec

/-- `impl Add<Duration> for Duration` (src/time/instant_ops.rs). -/
def Duration.add (a b : Duration) : Duration :=
  ⟨a.usec + b.usec⟩

/-- `impl Sub<Duration> for Duration` (src/time/instant_ops.rs). -/
def Duration.sub (a b : Duration) : Duration :=
  ⟨a.usec - b.usec⟩

/-- `Instant::from_gps_week_and_sow` (src/time/instant.rs lines 124-128):
`raw = week * 14_515_200_000_000 + (sow * 1.0e6) as i64 + GPS_EPOCH.raw`.
The second argument carries the already scaled `(sow * 1.0e6) as i64`
value in integer microseconds. -/
def Instant.from_gps_week_and_sow (week sowUsec : Int) : Instant :=
  ⟨week * 14515200000000 + sowUsec + Instant.GPS_EPOCH.raw⟩

/-- `Instant::from_unixtime` (src/time/instant.rs lines 141-151) at
microsecond granularity: `u` stands for the exactly converted
`(unixtime * 1.0e6) as i64`.  The code adds the leap seconds looked up at
the first estimate and then corrects once more in case the addition
crossed another leap-second boundary. -/
def Instant.from_unixtime_us (u : Int) : Instant :=
  let raw0 := u + Instant.UNIX_EPOCH.raw
  let ls := microleapseconds raw0
  let raw1 := raw0 + ls
  ⟨raw1 + (microleapseconds raw1 - ls)⟩

/-- `Instant::as_unixtime` (src/time/instant.rs lines 161-164) at
microsecond granularity: the returned `f64` is
`(raw - UNIX_EPOCH.raw - microleapseconds raw) as f64 * 1.0e-6`; this
definition carries the integer numerator of that value in microseconds. -/
def Instant.as_unixtime_us (i : Instant) : Int :=
  i.raw - Instant.UNIX_EPOCH.raw - microleapseconds i.raw

/-- `Instant::as_mjd` (src/time/instant.rs lines 190-193), with the `f64`
division modelled as exact rational division. -/
def Instant.as_mjd (i : Instant) : ℚ :=
  ((i.raw - Instant.MJD_EPOCH.raw - microleapseconds i.raw : Int) : ℚ) / 86400000000

/-- `Instant::as_jd` (src/time/instant.rs lines 199-201):
`as_mjd() + 2400000.5`. -/
def Instant.as_jd (i : Instant) : ℚ :=
  i.as_mjd + 2400000.5

/-- The step `self.as_jd().floor() as i64` of `Instant::gregorian`,
computed by exact integer arithmetic:
`as_jd = (raw - MJD_EPOCH.raw - microleapseconds raw + 2400000.5 * 86400000000) / 86400000000`,
and `2400000.5 * 86400000000 = 207360043200000000`, so the floor is the
floor division below (see `jdFloorOf_eq_floor_as_jd`). -/
def jdFloorOf (raw : Int) : Int :=
  Int.fdiv (raw - Instant.MJD_EPOCH.raw - microleapseconds raw + 207360043200000000)
    86400000000

/-- `utc_usec_of_day` of `Instant::gregorian` (src/time/instant.rs
line 207): `(raw - microleapseconds(raw)) % 86_400_000_000` with the Rust
truncated remainder. -/
def utcUsecOfDay (raw : Int) : Int :=
  Int.tmod (raw - microleapseconds raw) 86400000000

/-- The `hour` variable of `Instant::gregorian` before the leap-second
fixup: `utc_usec_of_day / 3_600_000_000` (Rust truncated division). -/
def hourRaw (raw : Int) : Int :=
  Int.tdiv (utcUsecOfDay raw) 3600000000

/-- The `minute` variable of `Instant::gregorian` before the leap-second
fixup. -/
def minuteRaw (raw : Int) : Int :=
  Int.tdiv (utcUsecOfDay raw - hourRaw raw * 3600000000) 60000000

/-- The `second` variable of `Instant::gregorian` before the leap-second
fixup, carried in integer microseconds (the source stores
`(...) as f64 * 1.0e-6`). -/
def secUsRaw (raw : Int) : Int :=
  utcUsecOfDay raw - hourRaw raw * 3600000000 - minuteRaw raw * 60000000

/-- The `jdadd` accumulator of `Instant::gregorian` after the
`if hour < 12 { jdadd += 1 }` statement and before the leap-second loop. -/
def jdadd0 (raw : Int) : Int :=
  if hourRaw raw < 12 then 1 else 0

/-- Body of the leap-second fixup applied by `Instant::gregorian` when an
entry of the table matches: sets `hour = 23`, `minute = 59`, turns the
second into a leap second (`60.0` when it was `0.0`, else `+ 1.0`, i.e.
`+ 1_000_000` microseconds) and decrements `jdadd`.  State components:
(hour, minute, second in microseconds, jdadd). -/
def leapFix (s : Int × Int × Int × Int) : Int × Int × Int × Int :=
  (23, 59, if s.2.2.1 = 0 then 60000000 else s.2.2.1 + 1000000, s.2.2.2 - 1)

/-- The `for (t, _) in LEAP_SECOND_TABLE.iter()` loop of
`Instant::gregorian` (src/time/instant.rs lines 219-230): for every entry
with `raw >= t && raw - t < 1_000_000` the fixup `leapFix` is applied to
the running state. -/
def leapLoop (raw : Int) : List (Int × Int) → Int × Int × Int × Int → Int × Int × Int × Int
  | [], s => s
  | (t, _) :: rest, s =>
      leapLoop raw rest (if t ≤ raw ∧ raw - t < 1000000 then leapFix s else s)

/-- The (hour, minute, second, jdadd) state of `Instant::gregorian` after
the leap-second loop. -/
def leapState (raw : Int) : Int × Int × Int × Int :=
  leapLoop raw LEAP_SECOND_TABLE (hourRaw raw, minuteRaw raw, secUsRaw raw, jdadd0 raw)

/-- The Julian day number `jd` that `Instant::gregorian` decomposes:
`self.as_jd().floor() as i64` plus the accumulated `jdadd`. -/
def jdOf (raw : Int) : Int :=
  jdFloorOf raw + (leapState raw).2.2.2

/-- The intermediate `f` of the Gregorian decomposition in
`Instant::gregorian` (gregorian_coefficients j = 1401, B = 274277,
C = -38): `f = jd + j + (((4 * jd + B) / 146097) * 3) / 4 + C`. -/
def gregF (jd : Int) : Int :=
  jd + 1401 + Int.tdiv (Int.tdiv (4 * jd + 274277) 146097 * 3) 4 + (-38)

/-- The intermediate `e = r * f + v = 4 * f + 3` of the decomposition. -/
def gregE (jd : Int) : Int :=
  4 * gregF jd + 3

/-- The intermediate `g = (e % p) / r = (e % 1461) / 4` of the
decomposition (Rust truncated division and remainder). -/
def gregG (jd : Int) : Int :=
  Int.tdiv (Int.tmod (gregE jd) 1461) 4

/-- The intermediate `h = u * g + w = 5 * g + 2` of the decomposition. -/
def gregH (jd : Int) : Int :=
  5 * gregG jd + 2

/-- The `day` produced by the decomposition:
`((h % s) / u) + 1 = ((h % 153) / 5) + 1`. -/
def dayOfJd (jd : Int) : Int :=
  Int.tdiv (Int.tmod (gregH jd) 153) 5 + 1

/-- The `month` produced by the decomposition:
`((h / s + m) % n) + 1 = ((h / 153 + 2) % 12) + 1`. -/
def monthOfJd (jd : Int) : Int :=
  Int.tmod (Int.tdiv (gregH jd) 153 + 2) 12 + 1

/-- The `year` produced by the decomposition:
`(e / p) - y + (n + m - month) / n = e / 1461 - 4716 + (12 + 2 - month) / 12`. -/
def yearOfJd (jd : Int) : Int :=
  Int.tdiv (gregE jd) 1461 - 4716 + Int.tdiv (12 + 2 - monthOfJd jd) 12

/-- `Instant::gregorian` (src/time/instant.rs lines 205-253): the
`(year, month, day, hour, minute, second)` tuple, UTC, with the second
carried in integer microseconds (the source returns it as `f64` seconds;
`60.0` corresponds to `60000000` here). -/
def Instant.gregorian (i : Instant) : Int × Int × Int × Int × Int × Int :=
  (yearOfJd (jdOf i.raw), monthOfJd (jdOf i.raw), dayOfJd (jdOf i.raw),
    (leapState i.raw).1, (leapState i.raw).2.1, (leapState i.raw).2.2.1)

/-- The part of the Julian-day formula of `Instant::from_gregorian` that
consumes the intermediates `g` and `f` together with the day:
`e = (p * g) / r + day - 1 - j`, `jd = e + (s * f + t) / u`, then
`jd = jd - (3 * ((g + A) / 100)) / 4 - C` with `C = -38`. -/
def jdnFromGF (g f day : Int) : Int :=
  Int.tdiv (1461 * g) 4 + day - 1 - 1401 + Int.tdiv (153 * f + 2) 5
    - Int.tdiv (3 * Int.tdiv (g + 184) 100) 4 - (-38)

/-- The integer Julian day (at noon of the given civil date) computed by
`Instant::from_gregorian` (src/time/instant.rs lines 263-269), with
`h = month - m`, `g = year + y - (n - h) / n`, `f = (h - 1 + n) % n`. -/
def jdnNoon (year month day : Int) : Int :=
  jdnFromGF (year + 4716 - Int.tdiv (12 - (month - 2)) 12)
    (Int.tmod (month - 2 - 1 + 12) 12) day

/-- `Instant::from_gregorian` (src/time/instant.rs lines 255-289).
Arguments mirror the source; the `second : f64` argument is carried as
the exactly scaled `(second * 1_000_000.0) as i64` value `secUsec`.
The integer `jd` computed by the source is the Julian day at noon of the
given date; the source then forms `jd as f64 - 0.5 - 2400000.5` and
truncates to `i64`, which equals `jd - 2400001` exactly. -/
def Instant.from_gregorian (year month day hour minute secUsec : Int) : Instant :=
  let mjdInt := jdnNoon year month day - 2400001
  let raw0 := mjdInt * 86400000000 + hour * 3600000000 + minute * 60000000 + secUsec
    + Instant.MJD_EPOCH.raw
  let ls := microleapseconds raw0
  let raw1 := raw0 + ls
  ⟨raw1 + microleapseconds raw1 - ls⟩

/-! ## Structural lemmas about the leap-second lookup -/

/-- The scan result is `0` or one of the offsets stored in the list. -/
theorem mlsAux_zero_or_mem (l : List (Int × Int)) (x : Int) :
    mlsAux l x = 0 ∨ ∃ p ∈ l, mlsAux l x = p.2 := by
  induction l with
  | nil => exact Or.inl rfl
  | cons p rest ih =>
    obtain ⟨t, ls⟩ := p
    by_cases h : t < x
    · exact Or.inr ⟨(t, ls), List.mem_cons_self _ _, by simp [mlsAux, h]⟩
    · rcases ih with h0 | ⟨q, hq, hval⟩
      · exact Or.inl (by simp [mlsAux, h, h0])
      · exact Or.inr ⟨q, List.mem_cons_of_mem _ hq, by simp [mlsAux, h, hval]⟩

/-- If every offset in the list lies in `[0, c]`, so does the scan result. -/
theorem mlsAux_bounds (l : List (Int × Int)) (c : Int) (hc : 0 ≤ c)
    (h : ∀ p ∈ l, 0 ≤ p.2 ∧ p.2 ≤ c) (x : Int) :
    0 ≤ mlsAux l x ∧ mlsAux l x ≤ c := by
  rcases mlsAux_zero_or_mem l x with h0 | ⟨p, hp, hval⟩
  · omega
  · have := h p hp
    omega

/-- The scan is monotone in `x` when the offsets are listed in
(weakly) decreasing order and are nonnegative. -/
theorem mlsAux_mono (l : List (Int × Int)) (hnn : ∀ p ∈ l, 0 ≤ p.2)
    (hpw : List.Pairwise (fun p q : Int × Int => q.2 ≤ p.2) l) :
    ∀ x y : Int, x ≤ y → mlsAux l x ≤ mlsAux l y := by
  induction l with
  | nil => intro x y _; exact le_refl _
  | cons p rest ih =>
    obtain ⟨t, ls⟩ := p
    intro x y hxy
    rcases List.pairwise_cons.mp hpw with ⟨hhead, htail⟩
    by_cases hx : t < x
    · have hy : t < y := lt_of_lt_of_le hx hxy
      simp [mlsAux, hx, hy]
    · by_cases hy : t < y
      · simp only [mlsAux, if_neg hx, if_pos hy]
        have hb : 0 ≤ mlsAux rest x ∧ mlsAux rest x ≤ ls := by
          refine mlsAux_bounds rest ls (hnn (t, ls) (List.mem_cons_self _ _)) ?_ x
          intro q hq
          exact ⟨hnn q (List.mem_cons_of_mem _ hq), hhead q hq⟩
        omega
      · simp only [mlsAux, if_neg hx, if_neg hy]
        exact ih (fun q hq => hnn q (List.mem_cons_of_mem _ hq)) htail x y hxy

/-- The scan result cannot change between `x` and `y` unless a threshold
lies in the half-open interval `[x, y)`. -/
theorem mlsAux_stable (l : List (Int × Int)) (x y : Int) (hxy : x ≤ y)
    (h : ∀ p ∈ l, ¬(x ≤ p.1 ∧ p.1 < y)) : mlsAux l x = mlsAux l y := by
  induction l with
  | nil => rfl
  | cons p rest ih =>
    obtain ⟨t, ls⟩ := p
    have hp := h (t, ls) (List.mem_cons_self _ _)
    by_cases hx : t < x
    · have hy : t < y := lt_of_lt_of_le hx hxy
      simp [mlsAux, hx, hy]
    · have hy : ¬ t < y := by simp only at hp; omega
      simp only [mlsAux, if_neg hx, if_neg hy]
      exact ih (fun q hq => h q (List.mem_cons_of_mem _ hq))

/-- Every offset of `LEAP_SECOND_TABLE` lies in `[0, 37000000]`. -/
theorem table_off_bounds : ∀ p ∈ LEAP_SECOND_TABLE, 0 ≤ p.2 ∧ p.2 ≤ 37000000 := by
  decide

/-- The offsets of `LEAP_SECOND_TABLE` are listed in decreasing order. -/
theorem table_off_pairwise :
    List.Pairwise (fun p q : Int × Int => q.2 ≤ p.2) LEAP_SECOND_TABLE := by
  decide

/-- Distinct thresholds of `LEAP_SECOND_TABLE` differ by more than
37000000 microseconds (in fact by months). -/
theorem table_sep : ∀ p ∈ LEAP_SECOND_TABLE, ∀ q ∈ LEAP_SECOND_TABLE,
    p.1 = q.1 ∨ 37000000 < p.1 - q.1 ∨ 37000000 < q.1 - p.1 := by
  decide

/-- Thresholds of `LEAP_SECOND_TABLE` are pairwise more than one second
apart, so at most one entry can match the one-second display window of
`Instant::gregorian` for a given raw value. -/
theorem table_window_pairwise :
    List.Pairwise (fun p q : Int × Int => 1000000 ≤ p.1 - q.1 ∨ 1000000 ≤ q.1 - p.1)
      LEAP_SECOND_TABLE := by
  decide

/-- `microleapseconds` always returns a value in `[0, 37000000]`. -/
theorem mls_bounds (x : Int) :
    0 ≤ microleapseconds x ∧ microleapseconds x ≤ 37000000 :=
  mlsAux_bounds LEAP_SECOND_TABLE 37000000 (by omega) table_off_bounds x

/-- `microleapseconds` is monotone. -/
theorem mls_mono (x y : Int) (hxy : x ≤ y) :
    microleapseconds x ≤ microleapseconds y :=
  mlsAux_mono LEAP_SECOND_TABLE (fun p hp => (table_off_bounds p hp).1)
    table_off_pairwise x y hxy

/-- If `microleapseconds` changes between `x ≤ y`, some table threshold
lies in `[x, y)`. -/
theorem mls_change (x y : Int) (hxy : x ≤ y)
    (hne : microleapseconds x ≠ microleapseconds y) :
    ∃ p ∈ LEAP_SECOND_TABLE, x ≤ p.1 ∧ p.1 < y := by
  by_contra hc
  push_neg at hc
  exact hne (mlsAux_stable LEAP_SECOND_TABLE x y hxy (by
    intro p hp
    intro ⟨h1, h2⟩
    exact absurd (hc p hp h1) (by omega)))

/-! ## Structural lemmas about the leap-second display loop -/

/-- If no table entry matches the display window, the loop is the
identity. -/
theorem leapLoop_nomatch (raw : Int) :
    ∀ (l : List (Int × Int)) (s : Int × Int × Int × Int),
      (∀ p ∈ l, ¬(p.1 ≤ raw ∧ raw - p.1 < 1000000)) → leapLoop raw l s = s := by
  intro l
  induction l with
  | nil => intro s _; rfl
  | cons p rest ih =>
    obtain ⟨t, ls⟩ := p
    intro s h
    have hp := h (t, ls) (List.mem_cons_self _ _)
    simp only [leapLoop, if_neg hp]
    exact ih s (fun q hq => h q (List.mem_cons_of_mem _ hq))

/-- When the thresholds are pairwise at least one second apart, the loop
applies the fixup exactly once if some entry matches the window, and not
at all otherwise. -/
theorem leapLoop_any (raw : Int) :
    ∀ (l : List (Int × Int)) (s : Int × Int × Int × Int),
      List.Pairwise (fun p q : Int × Int => 1000000 ≤ p.1 - q.1 ∨ 1000000 ≤ q.1 - p.1) l →
      leapLoop raw l s =
        if l.any (fun p => decide (p.1 ≤ raw ∧ raw - p.1 < 1000000)) then leapFix s
        else s := by
  intro l
  induction l with
  | nil => intro s _; rfl
  | cons p rest ih =>
    obtain ⟨t, ls⟩ := p
    intro s hpw
    rcases List.pairwise_cons.mp hpw with ⟨hhead, htail⟩
    by_cases hc : t ≤ raw ∧ raw - t < 1000000
    · simp only [leapLoop, if_pos hc]
      have hrest : ∀ q ∈ rest, ¬(q.1 ≤ raw ∧ raw - q.1 < 1000000) := by
        intro q hq
        have := hhead q hq
        simp only at this
        omega
      rw [leapLoop_nomatch raw rest (leapFix s) hrest]
      simp [List.any_cons, hc]
    · simp only [leapLoop, if_neg hc]
      rw [ih s htail]
      simp only [List.any_cons, decide_eq_false hc, Bool.false_or]

/-- The display loop over the concrete table fires at most once. -/
theorem leapLoop_table (raw : Int) (s : Int × Int × Int × Int) :
    leapLoop raw LEAP_SECOND_TABLE s =
      if LEAP_SECOND_TABLE.any (fun p => decide (p.1 ≤ raw ∧ raw - p.1 < 1000000))
      then leapFix s else s :=
  leapLoop_any raw LEAP_SECOND_TABLE s table_window_pairwise

/-- The integer floor division in `jdFloorOf` computes exactly the floor
of the rational `as_jd` value: the modelled
`self.as_jd().floor() as i64`. -/
theorem jdFloorOf_eq_floor_as_jd (raw : Int) :
    jdFloorOf raw = ⌊(Instant.mk raw).as_jd⌋ := by
  unfold jdFloorOf Instant.as_jd Instant.as_mjd
  have h : ((Instant.mk raw).raw - Instant.MJD_EPOCH.raw
        - microleapseconds (Instant.mk raw).raw : Int) =
      (raw - Instant.MJD_EPOCH.raw - microleapseconds raw : Int) := rfl
  rw [h]
  set n : Int := raw - Instant.MJD_EPOCH.raw - microleapseconds raw with hn
  have h2 : ((n : ℚ) / 86400000000 + 2400000.5) =
      ((n + 207360043200000000 : Int) : ℚ) / ((86400000000 : ℕ) : ℚ) := by
    push_cast
    ring
  rw [h2, Rat.floor_intCast_div_natCast]
  rw [Int.fdiv_eq_ediv _ (by omega)]
  norm_num

/-! ## Claim theorems -/

/-- C3: the leap-second lookup at a raw value lying exactly on a table
threshold.  The claim states the tie-break is `<=` so that the exact
threshold receives the new-regime offset (37000000 at the 2017-01-01
threshold).  The code (`if raw > *t`) uses a strict comparison: at the
exact 2017-01-01 threshold `1483228836000000` (an entry of the table, as
the third conjunct records) it returns the pre-insertion offset
36000000, and only one microsecond later does it return 37000000. -/
theorem C3_tiebreak_eval :
    microleapseconds 1483228836000000 = 36000000 ∧
    microleapseconds 1483228837000000 = 37000000 ∧
    (1483228836000000, 37000000) ∈ LEAP_SECOND_TABLE := by
  decide

/-- C4: `from_gps_week_and_sow(1, 0.0)`.  The claim states one GPS week
advances the instant by 604800 seconds past `GPS_EPOCH` (with the
constructors' leap-second correction); the code advances it by
`14_515_200` seconds = 24 × 604800 seconds (168 days) and applies no
leap-second correction at all. -/
theorem C4_week_length_eval :
    (Instant.from_gps_week_and_sow 1 0).raw = 330480019000000 ∧
    (Instant.from_gps_week_and_sow 1 0).raw - Instant.GPS_EPOCH.raw
      = 24 * 604800000000 ∧
    (Instant.from_gps_week_and_sow 1 0).raw - Instant.GPS_EPOCH.raw
      ≠ 604800000000 := by
  decide

/-- C5: for every Instant `t` and Duration `d`, `(t + d) - d == t` and
`(t - d) + d == t` hold exactly, as integer arithmetic on the internal
microsecond count. -/
theorem C5_arithmetic_inverses (t : Instant) (d : Duration) :
    (t.add d).sub d = t ∧ (t.sub d).add d = t := by
  obtain ⟨x⟩ := t
  obtain ⟨y⟩ := d
  refine ⟨?_, ?_⟩ <;> simp only [Instant.add, Instant.sub, Instant.mk.injEq] <;> omega

/-- C6: for Instants `a < b` (order on the internal count) and Durations
`d ≥ 0`: `a + d ≤ b + d`, `(b - a).as_microseconds() > 0`, and
`a + d ≥ a`. -/
theorem C6_monotonicity (a b : Instant) (d : Duration)
    (hab : a.raw < b.raw) (hd : 0 ≤ d.usec) :
    (a.add d).raw ≤ (b.add d).raw ∧
    0 < (b.subInstant a).as_microseconds ∧
    a.raw ≤ (a.add d).raw := by
  simp only [Instant.add, Instant.subInstant, Duration.as_microseconds]
  omega

/-- Witness for C6 at `a = 0`, `b = 5`, `d = 3`. -/
theorem C6_monotonicity_witness :
    ((Instant.mk 0).add ⟨3⟩).raw ≤ ((Instant.mk 5).add ⟨3⟩).raw ∧
    0 < ((Instant.mk 5).subInstant ⟨0⟩).as_microseconds ∧
    (Instant.mk 0).raw ≤ ((Instant.mk 0).add ⟨3⟩).raw :=
  C6_monotonicity ⟨0⟩ ⟨5⟩ ⟨3⟩ (by decide) (by decide)

/-- C7: `from_gregorian(2024,11,24,12,0,0.0).as_jd() == 2460639.0`,
`as_mjd() == 60638.5`, and for every Instant
`as_jd() == as_mjd() + 2400000.5` (the last holds by definition of
`as_jd`). -/
theorem C7_julian_scenario :
    Instant.as_jd (Instant.from_gregorian 2024 11 24 12 0 0) = 2460639 ∧
    Instant.as_mjd (Instant.from_gregorian 2024 11 24 12 0 0) = 60638.5 ∧
    ∀ i : Instant, i.as_jd = i.as_mjd + 2400000.5 := by
  have h : Instant.from_gregorian 2024 11 24 12 0 0 = ⟨1732449637000000⟩ := by decide
  have hls : microleapseconds 1732449637000000 = 37000000 := by decide
  refine ⟨?_, ?_, fun i => rfl⟩ <;>
    rw [h] <;>
    simp only [Instant.as_jd, Instant.as_mjd, Instant.MJD_EPOCH, hls] <;>
    norm_num

/-- C8 counterexample: `from_gregorian` called with the out-of-domain
month 13 does not report any error; it silently returns the Instant
computed from the invalid input by the calendar formula (the same
Instant as month 1 of the following year). -/
theorem C8_counterexample :
    Instant.from_gregorian 2024 13 1 0 0 0 = Instant.from_gregorian 2025 1 1 0 0 0 ∧
    (Instant.from_gregorian 2024 13 1 0 0 0).raw = 1735689637000000 := by
  decide

/-- The noon Julian-day formula of `from_gregorian` absorbs month 13 of
year `y` as month 1 of year `y + 1`. -/
theorem jdnNoon_thirteen (y d : Int) : jdnNoon y 13 d = jdnNoon (y + 1) 1 d := by
  have e1 : Int.tdiv (12 - ((13 : Int) - 2)) 12 = 0 := by decide
  have e2 : Int.tdiv (12 - ((1 : Int) - 2)) 12 = 1 := by decide
  have hg : y + 4716 - Int.tdiv (12 - ((13 : Int) - 2)) 12
      = (y + 1) + 4716 - Int.tdiv (12 - ((1 : Int) - 2)) 12 := by
    rw [e1, e2]
    ring
  have hb : Int.tmod ((13 : Int) - 2 - 1 + 12) 12 = Int.tmod ((1 : Int) - 2 - 1 + 12) 12 := by
    decide
  unfold jdnNoon
  rw [hg, hb]

/-- C8 amended: `from_gregorian` performs no validation of its calendar
fields and reports no error; for every input it totally returns the
Instant computed by the calendar formula, which folds an out-of-domain
month modularly — month 13 of year `y` produces exactly the Instant of
month 1 of year `y + 1`. -/
theorem C8_amended (y d hh mm sus : Int) :
    Instant.from_gregorian y 13 d hh mm sus
      = Instant.from_gregorian (y + 1) 1 d hh mm sus := by
  simp only [Instant.from_gregorian]
  rw [jdnNoon_thirteen]

/-- C10: the two-step leap-second correction of `from_unixtime` lands the
internal count in the same leap-second regime whose offset `as_unixtime`
subtracts, so the round trip is exact for every integer microsecond
count (the `f64` boundary scaling is exact under the claim's
representability hypothesis). -/
theorem C10_unixtime_roundtrip (u : Int) :
    Instant.as_unixtime_us (Instant.from_unixtime_us u) = u := by
  have hb0 := mls_bounds u
  have hb1 := mls_bounds (u + microleapseconds u)
  have hmono : microleapseconds u ≤ microleapseconds (u + microleapseconds u) :=
    mls_mono u (u + microleapseconds u) (by omega)
  simp only [Instant.from_unixtime_us, Instant.as_unixtime_us, Instant.UNIX_EPOCH,
    add_zero, sub_zero]
  have harg : u + microleapseconds u
      + (microleapseconds (u + microleapseconds u) - microleapseconds u)
      = u + microleapseconds (u + microleapseconds u) := by ring
  rw [harg]
  set A := microleapseconds (u + microleapseconds u) with hA
  suffices hkey : microleapseconds (u + A) = A by omega
  rcases eq_or_ne A (microleapseconds u) with he | hne
  · rw [he, ← hA]
    exact he
  · by_contra hc
    obtain ⟨p, hp, hpu, hpr⟩ := mls_change u (u + microleapseconds u) (by omega)
      (hA ▸ Ne.symm hne)
    obtain ⟨q, hq, hqu, hqr⟩ := mls_change (u + microleapseconds u) (u + A) (by omega)
      (by rw [← hA]; exact Ne.symm hc)
    have hsep := table_sep p hp q hq
    omega

/-- C1: the Gregorian round trip fails on the code at the valid civil
timestamp 2017-01-01T00:00:00.0: the constructed instant lands exactly
on the 2017 leap-second table threshold and `gregorian` renders it as
2016-12-31T23:59:60.0 instead of returning the input tuple. -/
theorem C1_roundtrip_failing_eval :
    (Instant.from_gregorian 2017 1 1 0 0 0).gregorian
      = (2016, 12, 31, 23, 59, 60000000) ∧
    ((2016, 12, 31, 23, 59, 60000000) : Int × Int × Int × Int × Int × Int)
      ≠ (2017, 1, 1, 0, 0, 0) := by
  decide

/-- C2 counterexample: the raw value `63072009000000` lies exactly on the
earliest (1972-01-01) table threshold, hence inside the 1-second window
at that threshold, yet `gregorian` renders it with second 10.0
(10000000 microseconds), not a 60th second. -/
theorem C2_sixty_counterexample :
    (63072009000000, 10000000) ∈ LEAP_SECOND_TABLE ∧
    (Instant.mk 63072009000000).gregorian = (1971, 12, 31, 23, 59, 10000000) ∧
    ¬ 60000000 ≤ ((Instant.mk 63072009000000).gregorian).2.2.2.2.2 := by
  decide

/-- The thresholds of `LEAP_SECOND_TABLE` are strictly decreasing. -/
theorem table_thresh_pairwise :
    List.Pairwise (fun p q : Int × Int => q.1 < p.1) LEAP_SECOND_TABLE := by
  decide

/-- Each threshold of `LEAP_SECOND_TABLE` is, after subtracting its own
offset, nonnegative and one second before a civil-day boundary: the raw
instant of a leap-second insertion is the last second of a UTC day. -/
theorem table_day_residue : ∀ p ∈ LEAP_SECOND_TABLE,
    0 ≤ p.1 - p.2 ∧ (p.1 - p.2) % 86400000000 = 86399000000 := by
  decide

/-- One microsecond past a listed threshold, the scan returns that
entry's offset (thresholds strictly decreasing down the list). -/
theorem mlsAux_succ_of_mem (t ls : Int) :
    ∀ l : List (Int × Int), List.Pairwise (fun p q : Int × Int => q.1 < p.1) l →
      (t, ls) ∈ l → mlsAux l (t + 1) = ls := by
  intro l
  induction l with
  | nil => intro _ h; cases h
  | cons p rest ih =>
    intro hpw hmem
    rcases List.pairwise_cons.mp hpw with ⟨hhead, htail⟩
    rcases List.mem_cons.mp hmem with he | hrest
    · rw [← he]
      simp [mlsAux]
    · have hgt : t < p.1 := hhead (t, ls) hrest
      obtain ⟨pt, pls⟩ := p
      simp only at hgt
      simp only [mlsAux, if_neg (by omega : ¬ pt < t + 1)]
      exact ih htail hrest

/-- Inside the display window of a table entry (strictly after the
threshold), the leap-second lookup returns that entry's offset. -/
theorem mls_in_window (t ls k : Int) (hmem : (t, ls) ∈ LEAP_SECOND_TABLE)
    (hk0 : 0 < k) (hk1 : k < 1000000) : microleapseconds (t + k) = ls := by
  have hbase : microleapseconds (t + 1) = ls :=
    mlsAux_succ_of_mem t ls LEAP_SECOND_TABLE table_thresh_pairwise hmem
  have hstable : microleapseconds (t + 1) = microleapseconds (t + k) := by
    refine mlsAux_stable LEAP_SECOND_TABLE (t + 1) (t + k) (by omega) ?_
    intro p hp ⟨h1, h2⟩
    have hsep := table_sep p hp (t, ls) hmem
    simp only at hsep
    omega
  omega

/-- Inside the display window of a table entry (strictly after the
threshold), the UTC microsecond-of-day is `86399000000 + k`, i.e. within
the final second of the civil day. -/
theorem utc_in_window (t ls k : Int) (hmem : (t, ls) ∈ LEAP_SECOND_TABLE)
    (hk0 : 0 < k) (hk1 : k < 1000000) :
    utcUsecOfDay (t + k) = 86399000000 + k := by
  have hL := mls_in_window t ls k hmem hk0 hk1
  have hres := table_day_residue (t, ls) hmem
  simp only at hres
  unfold utcUsecOfDay
  rw [hL, Int.tmod_eq_emod (by omega) (by omega)]
  omega

/-- Inside the display window the pre-fixup hour is 23. -/
theorem hour_in_window (t ls k : Int) (hmem : (t, ls) ∈ LEAP_SECOND_TABLE)
    (hk0 : 0 < k) (hk1 : k < 1000000) : hourRaw (t + k) = 23 := by
  unfold hourRaw
  rw [utc_in_window t ls k hmem hk0 hk1, Int.tdiv_eq_ediv (by omega) (by omega)]
  omega

/-- Inside the display window the pre-fixup minute is 59. -/
theorem minute_in_window (t ls k : Int) (hmem : (t, ls) ∈ LEAP_SECOND_TABLE)
    (hk0 : 0 < k) (hk1 : k < 1000000) : minuteRaw (t + k) = 59 := by
  unfold minuteRaw
  rw [utc_in_window t ls k hmem hk0 hk1, hour_in_window t ls k hmem hk0 hk1,
    Int.tdiv_eq_ediv (by omega) (by omega)]
  omega

/-- Inside the display window the pre-fixup second is `59000000 + k`
microseconds. -/
theorem sec_in_window (t ls k : Int) (hmem : (t, ls) ∈ LEAP_SECOND_TABLE)
    (hk0 : 0 < k) (hk1 : k < 1000000) : secUsRaw (t + k) = 59000000 + k := by
  unfold secUsRaw
  rw [utc_in_window t ls k hmem hk0 hk1, hour_in_window t ls k hmem hk0 hk1,
    minute_in_window t ls k hmem hk0 hk1]
  omega

/-- A raw value in the display window of a table entry makes the loop
condition match. -/
theorem window_matches (t ls k : Int) (hmem : (t, ls) ∈ LEAP_SECOND_TABLE)
    (hk0 : 0 ≤ k) (hk1 : k < 1000000) :
    (LEAP_SECOND_TABLE.any fun p => decide (p.1 ≤ t + k ∧ t + k - p.1 < 1000000))
      = true := by
  rw [List.any_eq_true]
  exact ⟨(t, ls), hmem, by simp only [decide_eq_true_eq]; omega⟩

/-- Inside the display window (strictly after the threshold) the state
after the leap-second loop is hour 23, minute 59, second
`60000000 + k` microseconds. -/
theorem leapState_in_window (t ls k : Int) (hmem : (t, ls) ∈ LEAP_SECOND_TABLE)
    (hk0 : 0 < k) (hk1 : k < 1000000) :
    leapState (t + k) = (23, 59, 60000000 + k, jdadd0 (t + k) - 1) := by
  unfold leapState
  rw [leapLoop_table, if_pos (window_matches t ls k hmem (by omega) hk1)]
  rw [hour_in_window t ls k hmem hk0 hk1, minute_in_window t ls k hmem hk0 hk1,
    sec_in_window t ls k hmem hk0 hk1]
  simp only [leapFix]
  rw [if_neg (by omega : ¬ (59000000 + k = 0))]
  simp only [Prod.mk.injEq, true_and, and_true]
  omega

/-- Exactly at each table threshold the rendered time keeps hour 23 and
minute 59, with a second in `[60, 61)` seconds everywhere except at the
earliest (1972-01-01) threshold, where the rendered second is 10.0. -/
theorem window_at_threshold : ∀ p ∈ LEAP_SECOND_TABLE,
    ((Instant.mk p.1).gregorian).2.2.2.1 = 23 ∧
    ((Instant.mk p.1).gregorian).2.2.2.2.1 = 59 ∧
    (p.1 ≠ 63072009000000 →
      60000000 ≤ ((Instant.mk p.1).gregorian).2.2.2.2.2 ∧
      ((Instant.mk p.1).gregorian).2.2.2.2.2 < 61000000) := by
  decide

/-- C2 amended: the 2016-2017 leap-second scenario holds exactly as
claimed, and for any internal value in the 1-second window at or after a
table threshold `gregorian` keeps hour 23 and minute 59 of the preceding
day (never rolling over), rendering a second in `[60, 61)` seconds —
except at the single raw value `63072009000000`, the exact 1972-01-01
threshold, where the ten initial leap seconds make the displayed second
10.0 instead. -/
theorem C2_amended :
    (Instant.mk 1483228836000000).gregorian = (2016, 12, 31, 23, 59, 60000000) ∧
    ((Instant.mk 1483228836000000).sub ⟨1000000⟩).gregorian
      = (2016, 12, 31, 23, 59, 59000000) ∧
    ((Instant.mk 1483228836000000).add ⟨1000000⟩).gregorian
      = (2017, 1, 1, 0, 0, 0) ∧
    ∀ t ls : Int, (t, ls) ∈ LEAP_SECOND_TABLE → ∀ k : Int, 0 ≤ k → k < 1000000 →
      ((Instant.mk (t + k)).gregorian).2.2.2.1 = 23 ∧
      ((Instant.mk (t + k)).gregorian).2.2.2.2.1 = 59 ∧
      (t + k ≠ 63072009000000 →
        60000000 ≤ ((Instant.mk (t + k)).gregorian).2.2.2.2.2 ∧
        ((Instant.mk (t + k)).gregorian).2.2.2.2.2 < 61000000) := by
  refine ⟨by decide, by decide, by decide, ?_⟩
  intro t ls hmem k hk0 hk1
  rcases eq_or_lt_of_le hk0 with h0 | hpos
  · subst h0
    have h := window_at_threshold (t, ls) hmem
    simpa only [add_zero] using h
  · have hst := leapState_in_window t ls k hmem hpos hk1
    simp only [Instant.gregorian]
    rw [hst]
    dsimp only
    exact ⟨rfl, rfl, fun _ => ⟨by omega, by omega⟩⟩

/-- Witness for the general window clause of C2, at the 2015-07-01 table
entry with `k = 500000` microseconds into the leap second. -/
theorem C2_amended_witness :
    ((Instant.mk (1435708835000000 + 500000)).gregorian).2.2.2.1 = 23 ∧
    ((Instant.mk (1435708835000000 + 500000)).gregorian).2.2.2.2.1 = 59 ∧
    60000000 ≤ ((Instant.mk (1435708835000000 + 500000)).gregorian).2.2.2.2.2 := by
  have h := C2_amended.2.2.2 1435708835000000 36000000 (by decide) 500000
    (by decide) (by decide)
  exact ⟨h.1, h.2.1, (h.2.2 (by decide)).1⟩

end Satctrl
